import Mathlib

/-!
Verification of the ShelfArc subagent delta engine (`.subagent/subagent_diff.py`).

Python strings are embedded as `List Char`; `Path` values are embedded as
lists of path components (absolute, already resolved — the model has no
symlinks, so `Path.resolve` is the identity).  The worktree directories
`pre_dir` / `post_dir` enter the path-normalization functions only through
`Path.as_posix()`, so those functions take them as character lists.
Python's set literal `{pre_dir.as_posix(), post_dir.as_posix()}` is embedded
as the deduplicated list `[pre, post]`.
-/

/-- Python whitespace, as used by `str.strip()` / `str.isspace()`
(ASCII whitespace together with the common Unicode members). -/
def isPySpace (c : Char) : Bool :=
  c == ' ' || c == '\t' || c == '\n' || c == '\r' || c == '\u000B' || c == '\u000C' ||
  c == '\u001C' || c == '\u001D' || c == '\u001E' || c == '\u001F' ||
  c == '\u0085' || c == '\u00A0' || c == '\u2028' || c == '\u2029'

/-- The whitespace set of `shlex` (`shlex.whitespace = " \t\r\n"`). -/
def isShlexWS (c : Char) : Bool :=
  c == ' ' || c == '\t' || c == '\r' || c == '\n'

/-- A double-quote character, the strip set of `str.strip('"')`. -/
def isQuoteChar (c : Char) : Bool := c == '"'

/-- Character list of a Lean string literal (embedding of a Python literal). -/
def pstr (s : String) : List Char := s.toList

/-- `startsWithL l p` is true when `p` is a leading segment of `l`
(Python `str.startswith`, `Path.relative_to` succeeding). -/
def startsWithL {α : Type} [BEq α] : List α → List α → Bool
  | _, [] => true
  | [], _ :: _ => false
  | a :: l, b :: p => a == b && startsWithL l p

/-- `endsWithL l p`: `p` is a trailing segment of `l` (Python `str.endswith`). -/
def endsWithL {α : Type} [BEq α] (l p : List α) : Bool :=
  startsWithL l.reverse p.reverse

/-- Contiguous-substring test (Python `needle in hay`). -/
def containsSub : List Char → List Char → Bool
  | [], needle => startsWithL ([] : List Char) needle
  | c :: t, needle => startsWithL (c :: t) needle || containsSub t needle

/-- Drop trailing characters satisfying `p`. -/
def dropTrail (p : Char → Bool) (l : List Char) : List Char :=
  (l.reverse.dropWhile p).reverse

/-- Strip characters satisfying `p` from both ends (Python `str.strip(...)`). -/
def stripEnds (p : Char → Bool) (l : List Char) : List Char :=
  dropTrail p (l.dropWhile p)

/-- Python `str.strip()` with no argument. -/
def pystrip (l : List Char) : List Char := stripEnds isPySpace l

/-- Python `str.strip('"')`. -/
def stripQuoteEnds (l : List Char) : List Char := stripEnds isQuoteChar l

/-- Python `str.lstrip()`. -/
def lstripPy (l : List Char) : List Char := l.dropWhile isPySpace

/-- Single-character replacement, Python `str.replace(a, b)` for 1-char `a`, `b`. -/
def pyReplaceChar (l : List Char) (a b : Char) : List Char :=
  l.map fun c => if c == a then b else c

/-- Replace each occurrence of the character `a` by the string `r`
(Python `str.replace(a, r)` for a 1-char needle). -/
def pyReplaceStr (l : List Char) (a : Char) (r : List Char) : List Char :=
  l.flatMap fun c => if c == a then r else [c]

/-- Python slice `s[1:-1]`. -/
def pySlice1m1 (l : List Char) : List Char := (l.drop 1).dropLast

/-- Python `str.rstrip("/")`. -/
def rstripSlashes (l : List Char) : List Char := dropTrail (fun c => c == '/') l

/-- Characters on which Python `str.splitlines` breaks. -/
def isPyLineBreak (c : Char) : Bool :=
  c == '\n' || c == '\r' || c == '\u000B' || c == '\u000C' ||
  c == '\u001C' || c == '\u001D' || c == '\u001E' ||
  c == '\u0085' || c == '\u2028' || c == '\u2029'

/-- Worker for `splitLinesPy`: accumulates the current line. -/
def splitLinesGo : List Char → List Char → List (List Char)
  | [], cur => if cur = [] then [] else [cur]
  | '\r' :: '\n' :: t, cur => cur :: splitLinesGo t []
  | c :: t, cur =>
    if isPyLineBreak c then cur :: splitLinesGo t []
    else splitLinesGo t (cur ++ [c])

/-- Python `str.splitlines()`. -/
def splitLinesPy (l : List Char) : List (List Char) := splitLinesGo l []

/-- Python `"\n".join(lines)`. -/
def joinNL : List (List Char) → List Char
  | [] => []
  | [l] => l
  | l :: l2 :: ls => l ++ '\n' :: joinNL (l2 :: ls)

/-- Left part of Python `line.split("|", 1)`. -/
def splitBarL : List Char → List Char
  | [] => []
  | c :: t => if c == '|' then [] else c :: splitBarL t

/-- Right part of Python `line.split("|", 1)`. -/
def splitBarR : List Char → List Char
  | [] => []
  | c :: t => if c == '|' then t else splitBarR t

/-! ### shlex

Model of `shlex.split(s)` (POSIX mode, `whitespace_split=True`, comments
disabled): states of the lexer are between-tokens whitespace, in-word,
single quote, double quote, and the two escape states (escape entered
outside a quote, escape entered inside a double quote).  `none` models the
`ValueError` raised on an unclosed quotation or a trailing escape. -/

/-- Lexer state of the shlex model. -/
inductive SState where
  | ws | word | sq | dq | escA | escD
  deriving DecidableEq

/-- One-pass shlex lexer: input, state, whether the current token saw a
quote, the current token, and the emitted tokens. -/
def shlexLoop : List Char → SState → Bool → List Char → List (List Char) →
    Option (List (List Char))
  | [], .ws, _, _, acc => some acc
  | [], .word, quoted, tok, acc =>
    if tok ≠ [] ∨ quoted then some (acc ++ [tok]) else some acc
  | [], .sq, _, _, _ => none
  | [], .dq, _, _, _ => none
  | [], .escA, _, _, _ => none
  | [], .escD, _, _, _ => none
  | c :: cs, .ws, quoted, tok, acc =>
    if isShlexWS c then shlexLoop cs .ws quoted tok acc
    else if c == '\\' then shlexLoop cs .escA quoted tok acc
    else if c == '\'' then shlexLoop cs .sq true tok acc
    else if c == '"' then shlexLoop cs .dq true tok acc
    else shlexLoop cs .word quoted (tok ++ [c]) acc
  | c :: cs, .word, quoted, tok, acc =>
    if isShlexWS c then
      if tok ≠ [] ∨ quoted then shlexLoop cs .ws false [] (acc ++ [tok])
      else shlexLoop cs .ws false [] acc
    else if c == '\\' then shlexLoop cs .escA quoted tok acc
    else if c == '\'' then shlexLoop cs .sq true tok acc
    else if c == '"' then shlexLoop cs .dq true tok acc
    else shlexLoop cs .word quoted (tok ++ [c]) acc
  | c :: cs, .sq, quoted, tok, acc =>
    if c == '\'' then shlexLoop cs .word quoted tok acc
    else shlexLoop cs .sq quoted (tok ++ [c]) acc
  | c :: cs, .dq, quoted, tok, acc =>
    if c == '"' then shlexLoop cs .word quoted tok acc
    else if c == '\\' then shlexLoop cs .escD quoted tok acc
    else shlexLoop cs .dq quoted (tok ++ [c]) acc
  | c :: cs, .escA, quoted, tok, acc => shlexLoop cs .word quoted (tok ++ [c]) acc
  | c :: cs, .escD, quoted, tok, acc =>
    if c == '\\' ∨ c == '"' then shlexLoop cs .dq quoted (tok ++ [c]) acc
    else shlexLoop cs .dq quoted (tok ++ [ '\\', c]) acc

/-- `shlex.split(remainder)`; `none` is the raised `ValueError`. -/
def shlexSplit (l : List Char) : Option (List (List Char)) :=
  shlexLoop l .ws false [] []

/-! ### PathNormalizer (`subagent_diff.py` lines 73–228) -/

/-- The cleaning expression `path.strip().strip('"').replace("\\", "/")`
shared (textually) by `normalize_path_value` and `is_excluded_path`. -/
def pyCleanPath (path : List Char) : List Char :=
  pyReplaceChar (stripQuoteEnds (pystrip path)) '\\' '/'

/-- One iteration of the prefix-stripping loop in `normalize_path_value`:
strip a leading `prefix + "/"`, or blank out a value equal to `prefix`. -/
def stripWorkPrefix (v pfx : List Char) : List Char :=
  if startsWithL v (pfx ++ [ '/']) then v.drop (pfx.length + 1)
  else if v == pfx then []
  else v

/-- `normalize_path_value(path, pre_dir, post_dir)`: strip surrounding
whitespace and quotes, convert backslashes, strip the worktree-root posix
prefixes and a leading `pre/` or `post/` segment. -/
def normalize_path_value (path preD postD : List Char) : List Char :=
  let value := pyCleanPath path
  let pfxs := if preD == postD then [preD] else [preD, postD]
  let value := pfxs.foldl stripWorkPrefix value
  if startsWithL value (pstr "pre/") then value.drop 4
  else if startsWithL value (pstr "post/") then value.drop 5
  else value

/-- `is_excluded_path(path)`: true for empty paths and for `.git` /
`.git/...` after stripping `./` and one of `a/` `b/`. -/
def is_excluded_path (path : List Char) : Bool :=
  if path = [] then true
  else
    let cleaned := pyCleanPath path
    let cleaned := if startsWithL cleaned (pstr "./") then cleaned.drop 2 else cleaned
    let cleaned :=
      if startsWithL cleaned (pstr "a/") || startsWithL cleaned (pstr "b/")
      then cleaned.drop 2 else cleaned
    cleaned == pstr ".git" || startsWithL cleaned (pstr ".git/")

/-- `extract_normalized_path(token, pre_dir, post_dir)`. -/
def extract_normalized_path (token preD postD : List Char) : List Char :=
  let text := pystrip token
  let text :=
    if startsWithL text (pstr "\"") && endsWithL text (pstr "\"")
    then pySlice1m1 text else text
  let text :=
    if startsWithL text (pstr "a/") || startsWithL text (pstr "b/")
    then text.drop 2 else text
  normalize_path_value text preD postD

/-- `normalize_diff_token(token, pre_dir, post_dir)`. -/
def normalize_diff_token (token preD postD : List Char) : List Char :=
  let text := pystrip token
  let quoted := startsWithL text (pstr "\"") && endsWithL text (pstr "\"")
  let text := if quoted then pySlice1m1 text else text
  let pq :=
    if startsWithL text (pstr "a/") then (pstr "a/", text.drop 2)
    else if startsWithL text (pstr "b/") then (pstr "b/", text.drop 2)
    else (([] : List Char), text)
  let text2 := normalize_path_value pq.2 preD postD
  let normalized := if text2 ≠ [] then pq.1 ++ text2 else rstripSlashes pq.1
  if quoted then '"' :: (normalized ++ [ '"']) else normalized

/-- `quote_if_needed(value)` from `handle_diff_header`: wrap in quotes and
escape backslashes and double quotes when the value contains whitespace. -/
def quote_if_needed (value : List Char) : List Char :=
  if value.any isPySpace then
    let escaped := pyReplaceStr (pyReplaceStr value '\\' (pstr "\\\\")) '"' (pstr "\\\"")
    '"' :: (escaped ++ [ '"'])
  else value

/-- `handle_diff_header(line, pre_dir, post_dir)`: returns the skip flag for
the block and the normalized header (`none` models Python `None`). -/
def handle_diff_header (line preD postD : List Char) : Bool × Option (List Char) :=
  if !(startsWithL line (pstr "diff --git ")) then (false, some line)
  else
    let remainder := pystrip (line.drop (pstr "diff --git ").length)
    if remainder = [] then (false, some line)
    else
      match shlexSplit remainder with
      | none => (false, some line)
      | some tokens =>
        match tokens with
        | [t1, t2] =>
          let left_token := quote_if_needed t1
          let right_token := quote_if_needed t2
          let left_path := extract_normalized_path left_token preD postD
          let right_path := extract_normalized_path right_token preD postD
          if is_excluded_path left_path || is_excluded_path right_path then
            (true, none)
          else
            let left := normalize_diff_token left_token preD postD
            let right := normalize_diff_token right_token preD postD
            (false, some (pstr "diff --git " ++ left ++ ' ' :: right))
        | _ => (false, some line)

/-- `normalize_patch_metadata_line(line, pre_dir, post_dir)`. -/
def normalize_patch_metadata_line (line preD postD : List Char) : List Char :=
  if startsWithL line (pstr "--- ") || startsWithL line (pstr "+++ ") then
    let pfx := line.take 4
    let path_token := line.drop 4
    if pystrip path_token == pstr "/dev/null" then line
    else pfx ++ normalize_diff_token path_token preD postD
  else if startsWithL line (pstr "rename from ") then
    pstr "rename from " ++
      normalize_diff_token (line.drop (pstr "rename from ").length) preD postD
  else if startsWithL line (pstr "rename to ") then
    pstr "rename to " ++
      normalize_diff_token (line.drop (pstr "rename to ").length) preD postD
  else line

/-- The line loop of `normalize_patch_output`, carrying the `skip_block`
flag; a `some` header is appended only when non-empty (Python truthiness). -/
def processPatchLines (preD postD : List Char) : Bool → List (List Char) → List (List Char)
  | _, [] => []
  | sk, l :: ls =>
    if startsWithL l (pstr "diff --git ") then
      let res := handle_diff_header l preD postD
      let tailOut := processPatchLines preD postD res.1 ls
      match res.2 with
      | some nl => if nl = [] then tailOut else nl :: tailOut
      | none => tailOut
    else if sk then processPatchLines preD postD sk ls
    else normalize_patch_metadata_line l preD postD :: processPatchLines preD postD sk ls

/-- `normalize_patch_output(raw, pre_dir, post_dir)`. -/
def normalize_patch_output (raw preD postD : List Char) : List Char :=
  joinNL (processPatchLines preD postD false (splitLinesPy raw))

/-- The line loop of `normalize_stat_output`. -/
def normalizeStatLines (preD postD : List Char) : List (List Char) → List (List Char)
  | [] => []
  | l :: ls =>
    if pystrip l = [] then normalizeStatLines preD postD ls
    else if l.any (fun c => c == '|') then
      let path_part := splitBarL l
      let rest := splitBarR l
      let path_clean := normalize_path_value path_part preD postD
      if path_clean = [] || is_excluded_path path_clean then
        normalizeStatLines preD postD ls
      else
        (path_clean ++ pstr " | " ++ pystrip rest) :: normalizeStatLines preD postD ls
    else lstripPy l :: normalizeStatLines preD postD ls

/-- `normalize_stat_output(raw, pre_dir, post_dir)`. -/
def normalize_stat_output (raw preD postD : List Char) : List Char :=
  joinNL (normalizeStatLines preD postD (splitLinesPy raw))

/-- The content actually written by `write_text(path, content)`:
a newline is appended only when the content is non-empty (Python
truthiness of `content`) and does not already end with one. -/
def write_text_content (content : List Char) : List Char :=
  content ++
    (if !content.isEmpty && !(endsWithL content (pstr "\n")) then pstr "\n" else [])

/-! ### SafetyGuard (`subagent_diff.py` lines 394–440)

A filesystem path is a list of components of an absolute path (the root is
`[]`); the model has no symlinks, so `Path.resolve()` is the identity and
is omitted.  The filesystem itself is the finite set of existing
directories and existing files. -/

/-- The existing directories and files of the modelled filesystem. -/
structure FS where
  dirs : List (List String)
  files : List (List String)
  deriving DecidableEq

/-- `Path.exists()` under the modelled filesystem. -/
def fsExists (fs : FS) (p : List String) : Bool :=
  fs.dirs.contains p || fs.files.contains p

/-- `Path.is_dir()` under the modelled filesystem. -/
def fsIsDir (fs : FS) (p : List String) : Bool := fs.dirs.contains p

/-- `Path.parent`: drop the last component; the root is its own parent. -/
def pathParent (p : List String) : List String := p.dropLast

/-- `Path.name`: the last component, `""` for the root. -/
def pathName (p : List String) : String := p.getLast?.getD ""

/-- `is_relative_to(path, parent)`: Python `Path.relative_to` succeeds
exactly when `parent`'s components lead `path`'s components. -/
def is_relative_to (path parent : List String) : Bool :=
  startsWithL path parent

/-- `is_top_level_path(path)`: the resolved path's parent equals itself. -/
def is_top_level_path (path : List String) : Bool :=
  pathParent path == path

/-- `is_safe_work_base_target(paths, repo_root)` over the four paths it
reads from `paths` (`work_base`, `work_base_parent`, `work_marker`) and
`repo_root`; `WORK_BASE_MARKER_NAME` lives inside `work_base`. -/
def is_safe_work_base_target (fs : FS)
    (work_base work_base_parent work_marker repo_root : List String) : Bool :=
  if !(fsExists fs work_base) || !(fsIsDir fs work_base) then false
  else if is_top_level_path work_base then false
  else if !(is_relative_to work_base repo_root
            || is_relative_to work_base work_base_parent) then false
  else if work_base == repo_root || work_base == work_base_parent then false
  else
    let marker_exists := fsExists fs work_marker
    let expected_name := containsSub (pathName work_base).toList (pstr "subagent_")
    marker_exists || expected_name

/-! ### WorktreeManager (`run_git`, `apply_patch`; lines 40–70, 250–278)

External git commands are an oracle `GitEnv` mapping an argument list to
its outcome; `run_git` either returns stripped stdout, raises
`CalledProcessError` for a disallowed exit code, or raises `RuntimeError`
on timeout.  `apply_patch` is modelled together with the trace of git
commands it issues, in order. -/

/-- Outcome of one external `git` invocation. -/
inductive ExecResult where
  | completed (rc : Int) (stdout stderr : String)
  | timedOut
  deriving DecidableEq

/-- Exceptions of the Python code reachable from `run_git`. -/
inductive PyError where
  | calledProcessError (rc : Int) (stdout stderr : String)
  | runtimeError (msg : String)
  deriving DecidableEq

/-- The oracle for external git commands: working directory and the
arguments after `git`. -/
structure GitEnv where
  run : String → List String → ExecResult

/-- Python `str.strip()` on a `String`. -/
def stripS (s : String) : String := ⟨pystrip s.data⟩

/-- Python `needle in haystack` on `String`s. -/
def strContains (hay needle : String) : Bool := containsSub hay.data needle.data

/-- `run_git(args, cwd, allow_exit_codes, timeout=300)`. -/
def run_gitE (env : GitEnv) (args : List String) (cwd : String)
    (allowed : List Int) : Except PyError String :=
  match env.run cwd args with
  | .timedOut =>
    .error (.runtimeError
      ("Git command timed out after 300s: " ++ String.intercalate " " ("git" :: args)))
  | .completed rc out err =>
    if rc ∈ allowed then .ok (stripS out) else .error (.calledProcessError rc out err)

/-- The `git worktree add` command issued by `apply_patch`. -/
def addCmd (worktree_dir : String) : List String :=
  ["worktree", "add", "--detach", worktree_dir, "HEAD"]

/-- The `git apply` command issued by `apply_patch`. -/
def applyCmd (worktree_dir patch_path : String) : List String :=
  ["-C", worktree_dir, "apply", "--whitespace=nowarn", patch_path]

/-- The `git worktree remove` command of `apply_patch`'s cleanup. -/
def removeCmd (worktree_dir : String) : List String :=
  ["worktree", "remove", "-f", worktree_dir]

/-- `apply_patch(repo_root, worktree_dir, patch_path)` together with the
ordered trace of git commands it issued.  A `CalledProcessError` from the
apply step triggers the cleanup removal (whose own `CalledProcessError` is
swallowed) before the apply `RuntimeError` is raised; a timeout anywhere
propagates as its own `RuntimeError`. -/
def apply_patch (env : GitEnv) (repo_root worktree_dir patch_path : String) :
    Except PyError Unit × List (List String) :=
  match run_gitE env (addCmd worktree_dir) repo_root [0] with
  | .error e => (.error e, [addCmd worktree_dir])
  | .ok _ =>
    match run_gitE env (applyCmd worktree_dir patch_path) repo_root [0] with
    | .ok _ => (.ok (), [addCmd worktree_dir, applyCmd worktree_dir patch_path])
    | .error (.runtimeError m) =>
      (.error (.runtimeError m), [addCmd worktree_dir, applyCmd worktree_dir patch_path])
    | .error (.calledProcessError _ _ stderr) =>
      let trace := [addCmd worktree_dir, applyCmd worktree_dir patch_path,
        removeCmd worktree_dir]
      match run_gitE env (removeCmd worktree_dir) repo_root [0] with
      | .error (.runtimeError m) => (.error (.runtimeError m), trace)
      | _ =>
        (.error (.runtimeError
          ("Failed to apply patch: " ++ patch_path ++ "\nstderr: " ++ stderr)), trace)

/-- Concrete oracle: worktree add succeeds, the apply fails with stderr
`boom`, and the cleanup removal times out. -/
def envTimeoutCleanup : GitEnv :=
  ⟨fun _ args =>
    if args = addCmd "wt" then .completed 0 "" ""
    else if args = applyCmd "wt" "p.patch" then .completed 1 "" "boom"
    else .timedOut⟩

/-- Concrete oracle: worktree add succeeds, the apply fails with stderr
`boom`, and the cleanup removal succeeds. -/
def envCleanupOk : GitEnv :=
  ⟨fun _ args =>
    if args = addCmd "wt" then .completed 0 "" ""
    else if args = applyCmd "wt" "p.patch" then .completed 1 "" "boom"
    else .completed 0 "" ""⟩

/-! ### Derived predicates used by the verification statements -/

/-- The running `skip_block` state of `normalize_patch_output` after a
list of lines has been consumed. -/
def endSkip (preD postD : List Char) : Bool → List (List Char) → Bool
  | s, [] => s
  | s, l :: ls =>
    if startsWithL l (pstr "diff --git ")
    then endSkip preD postD (handle_diff_header l preD postD).1 ls
    else endSkip preD postD s ls

/-- A value on which `normalize_path_value` performs no rewriting: already
stripped of surrounding whitespace and quotes, free of backslashes, and not
bearing a worktree-root, `pre/`, or `post/` prefix (nor equal to a
worktree root). -/
def canonicalVal (preD postD v : List Char) : Bool :=
  pystrip v == v && stripQuoteEnds v == v && !(v.any fun c => c == '\\') &&
  !(startsWithL v (preD ++ [ '/'])) && !(v == preD) &&
  !(startsWithL v (postD ++ [ '/'])) && !(v == postD) &&
  !(startsWithL v (pstr "pre/")) && !(startsWithL v (pstr "post/"))

/-- A canonical bare diff-path token: non-empty, purely plain characters
(no whitespace, quotes, apostrophes or backslashes), unprefixed by the
diff conventions `a/` / `b/`, and canonical for `normalize_path_value`. -/
def canonicalBareTok (preD postD t : List Char) : Bool :=
  !t.isEmpty &&
  t.all (fun c =>
    !(isPySpace c) && !(isShlexWS c) && !(c == '"') && !(c == '\'') && !(c == '\\')) &&
  !(startsWithL t (pstr "a/")) && !(startsWithL t (pstr "b/")) &&
  canonicalVal preD postD t

/-- A character that shlex treats as ordinary word material. -/
def plainShlexChar (c : Char) : Bool :=
  !(isShlexWS c) && !(c == '\\') && !(c == '\'') && !(c == '"')

/-- A string that both starts and ends with a double quote — the `quoted`
test of `normalize_diff_token`, and also what it means for its result to
be wrapped in double quotes. -/
def isQuotedTok (t : List Char) : Bool :=
  startsWithL t (pstr "\"") && endsWithL t (pstr "\"")

/-! ### Helper lemmas -/

theorem startsWithL_nil_right {α : Type} [BEq α] (l : List α) :
    startsWithL l ([] : List α) = true := by
  cases l <;> rfl

theorem startsWithL_cons_cons {α : Type} [BEq α] (a b : α) (l p : List α) :
    startsWithL (a :: l) (b :: p) = (a == b && startsWithL l p) := rfl

theorem startsWithL_iff {α : Type} [BEq α] [LawfulBEq α] {l p : List α} :
    startsWithL l p = true ↔ ∃ r, l = p ++ r := by
  induction p generalizing l with
  | nil => simp [startsWithL_nil_right]
  | cons b p ih =>
    cases l with
    | nil => simp [startsWithL]
    | cons a l =>
      simp only [startsWithL_cons_cons, Bool.and_eq_true, beq_iff_eq, ih,
        List.cons_append, List.cons.injEq]
      constructor
      · rintro ⟨rfl, r, rfl⟩; exact ⟨r, rfl, rfl⟩
      · rintro ⟨r, rfl, rfl⟩; exact ⟨rfl, r, rfl⟩

theorem startsWithL_append {α : Type} [BEq α] [LawfulBEq α] (p r : List α) :
    startsWithL (p ++ r) p = true :=
  startsWithL_iff.mpr ⟨r, rfl⟩

theorem startsWithL_refl {α : Type} [BEq α] [LawfulBEq α] (l : List α) :
    startsWithL l l = true :=
  startsWithL_iff.mpr ⟨[], by simp⟩

theorem mem_of_startsWithL_single {c : Char} {l : List Char}
    (h : startsWithL l [c] = true) : c ∈ l := by
  obtain ⟨r, rfl⟩ := startsWithL_iff.mp h
  simp

theorem startsWithL_single_eq_false_of_not_mem {c : Char} {l : List Char}
    (h : c ∉ l) : startsWithL l [c] = false := by
  cases hs : startsWithL l [c] with
  | false => rfl
  | true => exact absurd (mem_of_startsWithL_single hs) h

theorem containsSub_append_self (a b : List Char) :
    containsSub (a ++ b) b = true := by
  induction a with
  | nil =>
    cases b with
    | nil => rfl
    | cons c t => simp [containsSub, startsWithL_refl]
  | cons x a ih => simp [containsSub, ih]

theorem dropWhile_eq_self_of_head? {p : Char → Bool} {l : List Char}
    (h : ∀ a, l.head? = some a → p a = false) : l.dropWhile p = l := by
  cases l with
  | nil => rfl
  | cons a t =>
    have : p a = false := h a rfl
    simp [List.dropWhile_cons, this]

theorem dropTrail_eq_self_of_getLast? {p : Char → Bool} {l : List Char}
    (h : ∀ b, l.getLast? = some b → p b = false) : dropTrail p l = l := by
  unfold dropTrail
  rw [dropWhile_eq_self_of_head? (fun a ha => h a (by rw [← List.head?_reverse]; exact ha)),
    List.reverse_reverse]

theorem stripEnds_eq_self_of_ends {p : Char → Bool} {l : List Char}
    (h1 : ∀ a, l.head? = some a → p a = false)
    (h2 : ∀ b, l.getLast? = some b → p b = false) : stripEnds p l = l := by
  unfold stripEnds
  rw [dropWhile_eq_self_of_head? h1, dropTrail_eq_self_of_getLast? h2]

theorem stripEnds_eq_self_of_all {p : Char → Bool} {l : List Char}
    (h : ∀ c ∈ l, p c = false) : stripEnds p l = l :=
  stripEnds_eq_self_of_ends
    (fun a ha => h a (List.mem_of_mem_head? (by rw [ha]; simp)))
    (fun b hb => h b (by
      have := List.mem_getLast?_eq_getLast (l := l) (x := b) (by rw [hb]; simp)
      obtain ⟨hne, rfl⟩ := this
      exact List.getLast_mem hne))

theorem mem_of_mem_stripEnds {p : Char → Bool} {l : List Char} {c : Char}
    (h : c ∈ stripEnds p l) : c ∈ l := by
  unfold stripEnds dropTrail at h
  have h1 : c ∈ (l.dropWhile p).reverse.dropWhile p := by
    simpa using h
  have h2 : c ∈ (l.dropWhile p).reverse := (List.dropWhile_sublist p).subset h1
  have h3 : c ∈ l.dropWhile p := by simpa using h2
  exact (List.dropWhile_sublist p).subset h3

theorem mem_of_mem_pyCleanPath {l : List Char} {c : Char}
    (h : c ∈ pyCleanPath l) : c ∈ l ∨ c = '/' := by
  unfold pyCleanPath pyReplaceChar at h
  obtain ⟨d, hd, hdc⟩ := List.mem_map.mp h
  by_cases hb : d = '\\'
  · right
    rw [← hdc, hb]; rfl
  · left
    have hbe : (d == '\\') = false := by simpa using hb
    rw [hbe] at hdc
    simp at hdc
    subst hdc
    exact mem_of_mem_stripEnds (mem_of_mem_stripEnds hd)

theorem mem_of_mem_stripWorkPrefix {v pfx : List Char} {c : Char}
    (h : c ∈ stripWorkPrefix v pfx) : c ∈ v := by
  unfold stripWorkPrefix at h
  split at h
  · exact List.mem_of_mem_drop h
  · split at h
    · exact absurd h (by simp)
    · exact h

theorem mem_of_mem_foldl_stripWorkPrefix {pfxs : List (List Char)} {v : List Char}
    {c : Char} (h : c ∈ pfxs.foldl stripWorkPrefix v) : c ∈ v := by
  induction pfxs generalizing v with
  | nil => simpa using h
  | cons pfx pfxs ih =>
    simp only [List.foldl_cons] at h
    exact mem_of_mem_stripWorkPrefix (ih h)

theorem mem_of_mem_normalize_path_value {v preD postD : List Char} {c : Char}
    (h : c ∈ normalize_path_value v preD postD) : c ∈ v ∨ c = '/' := by
  have key : ∀ w : List Char,
      c ∈ (if startsWithL w (pstr "pre/") then w.drop 4
           else if startsWithL w (pstr "post/") then w.drop 5 else w) → c ∈ w := by
    intro w hw
    split at hw
    · exact List.mem_of_mem_drop hw
    · split at hw
      · exact List.mem_of_mem_drop hw
      · exact hw
  simp only [normalize_path_value] at h
  exact mem_of_mem_pyCleanPath (mem_of_mem_foldl_stripWorkPrefix (key _ h))

theorem pyReplaceChar_eq_self {l : List Char} {a b : Char}
    (h : ∀ c ∈ l, (c == a) = false) : pyReplaceChar l a b = l := by
  unfold pyReplaceChar
  have he : ∀ c ∈ l, (if c == a then b else c) = id c := by
    intro c hc
    rw [h c hc]
    rfl
  rw [List.map_congr_left he, List.map_id]

theorem stripWorkPrefix_eq_self {v pfx : List Char}
    (h1 : startsWithL v (pfx ++ [ '/']) = false) (h2 : (v == pfx) = false) :
    stripWorkPrefix v pfx = v := by
  simp [stripWorkPrefix, h1, h2]

theorem pyCleanPath_eq_self {v : List Char}
    (hstrip : pystrip v = v) (hquote : stripQuoteEnds v = v)
    (hbs : (v.any fun c => c == '\\') = false) : pyCleanPath v = v := by
  unfold pyCleanPath
  rw [hstrip, hquote]
  exact pyReplaceChar_eq_self fun c hc => by
    simpa using List.any_eq_false.mp hbs c hc

theorem normalize_path_value_eq_self {preD postD v : List Char}
    (h : canonicalVal preD postD v = true) :
    normalize_path_value v preD postD = v := by
  simp only [canonicalVal, Bool.and_eq_true, Bool.not_eq_true'] at h
  obtain ⟨⟨⟨⟨⟨⟨⟨⟨hstrip, hquote⟩, hbs⟩, hpreS⟩, hpreE⟩, hpostS⟩, hpostE⟩, hp1⟩, hp2⟩ := h
  have hclean : pyCleanPath v = v :=
    pyCleanPath_eq_self (by simpa using hstrip) (by simpa using hquote) hbs
  simp only [normalize_path_value, hclean]
  have hfold :
      List.foldl stripWorkPrefix v (if preD == postD then [preD] else [preD, postD]) = v := by
    split
    · simp [stripWorkPrefix_eq_self hpreS hpreE]
    · simp [List.foldl, stripWorkPrefix_eq_self hpreS hpreE,
        stripWorkPrefix_eq_self hpostS hpostE]
  rw [hfold, hp1, hp2]
  simp

theorem shlexLoop_word_plain {t : List Char} (cs : List Char) (q : Bool)
    (tok : List Char) (acc : List (List Char))
    (h : ∀ c ∈ t, plainShlexChar c = true) :
    shlexLoop (t ++ cs) .word q tok acc = shlexLoop cs .word q (tok ++ t) acc := by
  induction t generalizing tok with
  | nil => simp
  | cons c t ih =>
    have hc := h c (by simp)
    simp only [plainShlexChar, Bool.and_eq_true, Bool.not_eq_true'] at hc
    obtain ⟨⟨⟨h1, h2⟩, h3⟩, h4⟩ := hc
    simp only [List.cons_append, shlexLoop, h1, h2, h3, h4]
    show shlexLoop (t ++ cs) .word q (tok ++ [c]) acc
      = shlexLoop cs .word q (tok ++ c :: t) acc
    rw [ih (tok ++ [c]) fun d hd => h d (by simp [hd])]
    simp

theorem shlexLoop_word_plain_nil {t : List Char} (q : Bool) (tok : List Char)
    (acc : List (List Char)) (h : ∀ c ∈ t, plainShlexChar c = true) :
    shlexLoop t .word q tok acc = shlexLoop [] .word q (tok ++ t) acc := by
  have hrun := shlexLoop_word_plain (t := t) [] q tok acc h
  simpa using hrun

theorem shlexSplit_two_plain {t1 t2 : List Char}
    (h1ne : t1 ≠ []) (h2ne : t2 ≠ [])
    (h1 : ∀ c ∈ t1, plainShlexChar c = true)
    (h2 : ∀ c ∈ t2, plainShlexChar c = true) :
    shlexSplit (t1 ++ ' ' :: t2) = some [t1, t2] := by
  obtain ⟨a, t1', rfl⟩ := List.exists_cons_of_ne_nil h1ne
  obtain ⟨b, t2', rfl⟩ := List.exists_cons_of_ne_nil h2ne
  have ha := h1 a (by simp)
  simp only [plainShlexChar, Bool.and_eq_true, Bool.not_eq_true'] at ha
  obtain ⟨⟨⟨ha1, ha2⟩, ha3⟩, ha4⟩ := ha
  unfold shlexSplit
  simp only [List.cons_append, shlexLoop, ha1, ha2, ha3, ha4]
  show shlexLoop (t1' ++ ' ' :: b :: t2') .word false [a] [] = some [a :: t1', b :: t2']
  rw [shlexLoop_word_plain (' ' :: b :: t2') false [a] []
    fun d hd => h1 d (by simp [hd])]
  show shlexLoop (b :: t2') .ws false [] [a :: t1'] = some [a :: t1', b :: t2']
  have hb := h2 b (by simp)
  simp only [plainShlexChar, Bool.and_eq_true, Bool.not_eq_true'] at hb
  obtain ⟨⟨⟨hb1, hb2⟩, hb3⟩, hb4⟩ := hb
  simp only [shlexLoop, hb1, hb2, hb3, hb4]
  show shlexLoop t2' .word false [b] [a :: t1'] = some [a :: t1', b :: t2']
  rw [shlexLoop_word_plain_nil false [b] [a :: t1'] fun d hd => h2 d (by simp [hd])]
  simp [shlexLoop]

theorem processPatchLines_append (preD postD : List Char) (xs : List (List Char))
    (s : Bool) (ys : List (List Char)) :
    processPatchLines preD postD s (xs ++ ys)
      = processPatchLines preD postD s xs
        ++ processPatchLines preD postD (endSkip preD postD s xs) ys := by
  induction xs generalizing s with
  | nil => simp [processPatchLines, endSkip]
  | cons l xs ih =>
    simp only [List.cons_append, processPatchLines, endSkip, List.append_eq]
    split
    · rw [ih]
      cases hres : (handle_diff_header l preD postD).2 with
      | none => simp
      | some nl =>
        by_cases hnl : nl = []
        · simp [hnl]
        · simp [hnl]
    · split
      · rw [ih]
      · rw [ih]
        simp

theorem processPatchLines_skip_noheader (preD postD : List Char)
    (blk rest : List (List Char))
    (hblk : ∀ l ∈ blk, startsWithL l (pstr "diff --git ") = false) :
    processPatchLines preD postD true (blk ++ rest)
      = processPatchLines preD postD true rest := by
  induction blk with
  | nil => rfl
  | cons l blk ih =>
    have hl := hblk l (by simp)
    simp only [List.cons_append, processPatchLines, hl, List.append_eq,
      Bool.false_eq_true, if_false, if_true]
    exact ih fun d hd => hblk d (by simp [hd])

theorem handle_diff_header_excluded {preD postD hline t1 t2 : List Char}
    (hhdr : startsWithL hline (pstr "diff --git ") = true)
    (htok : shlexSplit (pystrip (hline.drop (pstr "diff --git ").length))
      = some [t1, t2])
    (hexc : (is_excluded_path (extract_normalized_path (quote_if_needed t1) preD postD)
      || is_excluded_path (extract_normalized_path (quote_if_needed t2) preD postD))
        = true) :
    handle_diff_header hline preD postD = (true, none) := by
  unfold handle_diff_header
  rw [hhdr]
  simp only [Bool.not_true, Bool.false_eq_true, if_false]
  have hrem : pystrip (hline.drop (pstr "diff --git ").length) ≠ [] := by
    intro hnil
    rw [hnil] at htok
    exact absurd (Option.some.injEq _ _ ▸ htok) (by simp [shlexSplit, shlexLoop])
  rw [if_neg hrem, htok]
  simp only [hexc, if_true]

theorem processPatchLines_drop_excluded {preD postD hline t1 t2 : List Char}
    (blk rest : List (List Char)) (s : Bool)
    (hhdr : startsWithL hline (pstr "diff --git ") = true)
    (htok : shlexSplit (pystrip (hline.drop (pstr "diff --git ").length))
      = some [t1, t2])
    (hexc : (is_excluded_path (extract_normalized_path (quote_if_needed t1) preD postD)
      || is_excluded_path (extract_normalized_path (quote_if_needed t2) preD postD))
        = true)
    (hblk : ∀ l ∈ blk, startsWithL l (pstr "diff --git ") = false) :
    processPatchLines preD postD s (hline :: (blk ++ rest))
      = processPatchLines preD postD true rest := by
  simp only [processPatchLines, hhdr, if_true,
    handle_diff_header_excluded hhdr htok hexc]
  exact processPatchLines_skip_noheader preD postD blk rest hblk

theorem normalizeStatLines_append (preD postD : List Char) (xs ys : List (List Char)) :
    normalizeStatLines preD postD (xs ++ ys)
      = normalizeStatLines preD postD xs ++ normalizeStatLines preD postD ys := by
  induction xs with
  | nil => rfl
  | cons l xs ih =>
    simp only [List.cons_append, normalizeStatLines]
    split
    · exact ih
    · split
      · split
        · exact ih
        · simp [ih]
      · simp [ih]

theorem pstr_dquote : pstr "\"" = ['"'] := rfl

theorem pstr_nl : pstr "\n" = ['\n'] := rfl

theorem mem_of_getLast?_eq {l : List Char} {b : Char} (h : l.getLast? = some b) :
    b ∈ l := by
  have hm := List.mem_getLast?_eq_getLast (l := l) (x := b) (by rw [h]; simp)
  obtain ⟨hne, rfl⟩ := hm
  exact List.getLast_mem hne

theorem getLast?_append_cons {t1 t2 : List Char} {x : Char} (h2ne : t2 ≠ []) :
    (t1 ++ x :: t2).getLast? = t2.getLast? := by
  obtain ⟨c, t2', rfl⟩ := List.exists_cons_of_ne_nil h2ne
  rw [List.getLast?_append, List.getLast?_cons_cons]
  cases hg : (c :: t2').getLast? with
  | none => simp at hg
  | some y => simp

theorem canonicalBareTok_props {preD postD t : List Char}
    (h : canonicalBareTok preD postD t = true) :
    t ≠ [] ∧
    (∀ c ∈ t, isPySpace c = false ∧ isShlexWS c = false ∧ (c == '"') = false ∧
      (c == '\'') = false ∧ (c == '\\') = false) ∧
    startsWithL t (pstr "a/") = false ∧ startsWithL t (pstr "b/") = false ∧
    canonicalVal preD postD t = true := by
  simp only [canonicalBareTok, Bool.and_eq_true, Bool.not_eq_true',
    List.all_eq_true] at h
  obtain ⟨⟨⟨⟨hne, hall⟩, ha⟩, hb⟩, hc⟩ := h
  refine ⟨by simpa [List.isEmpty_iff] using hne, ?_, ha, hb, hc⟩
  intro c hcm
  have h5 := hall c hcm
  simp only [Bool.and_eq_true, Bool.not_eq_true'] at h5
  tauto

theorem pystrip_concat_tokens {t1 t2 : List Char} (h1ne : t1 ≠ []) (h2ne : t2 ≠ [])
    (h1 : ∀ c ∈ t1, isPySpace c = false) (h2 : ∀ c ∈ t2, isPySpace c = false) :
    pystrip (t1 ++ ' ' :: t2) = t1 ++ ' ' :: t2 := by
  apply stripEnds_eq_self_of_ends
  · intro a ha
    obtain ⟨x, t1', rfl⟩ := List.exists_cons_of_ne_nil h1ne
    simp only [List.cons_append, List.head?_cons, Option.some.injEq] at ha
    subst ha
    exact h1 _ (List.mem_cons_self _ _)
  · intro b hb
    rw [getLast?_append_cons h2ne] at hb
    exact h2 b (mem_of_getLast?_eq hb)

theorem extract_normalized_path_canonical {preD postD t : List Char}
    (h : canonicalBareTok preD postD t = true) :
    extract_normalized_path t preD postD = t := by
  obtain ⟨hne, hall, ha, hb, hcv⟩ := canonicalBareTok_props h
  have hstrip : pystrip t = t := stripEnds_eq_self_of_all fun c hc => (hall c hc).1
  have hq : startsWithL t (pstr "\"") = false := by
    rw [pstr_dquote]
    apply startsWithL_single_eq_false_of_not_mem
    intro hmem
    have h5 := (hall _ hmem).2.2.1
    simp at h5
  simp only [extract_normalized_path, hstrip, hq, Bool.false_and,
    Bool.false_eq_true, if_false, ha, hb, Bool.or_self]
  exact normalize_path_value_eq_self hcv

theorem normalize_diff_token_canonical {preD postD t : List Char}
    (h : canonicalBareTok preD postD t = true) :
    normalize_diff_token t preD postD = t := by
  obtain ⟨hne, hall, ha, hb, hcv⟩ := canonicalBareTok_props h
  have hstrip : pystrip t = t := stripEnds_eq_self_of_all fun c hc => (hall c hc).1
  have hq : startsWithL t (pstr "\"") = false := by
    rw [pstr_dquote]
    apply startsWithL_single_eq_false_of_not_mem
    intro hmem
    have h5 := (hall _ hmem).2.2.1
    simp at h5
  simp only [normalize_diff_token, hstrip, hq, Bool.false_and,
    Bool.false_eq_true, if_false, ha, hb, normalize_path_value_eq_self hcv,
    ne_eq, hne, not_false_eq_true, if_true, List.nil_append]

theorem quote_if_needed_plain {t : List Char}
    (h : ∀ c ∈ t, isPySpace c = false) : quote_if_needed t = t := by
  have hany : t.any isPySpace = false := List.any_eq_false.mpr fun c hc => by simp [h c hc]
  simp [quote_if_needed, hany]

theorem handle_diff_header_canonical {preD postD t1 t2 : List Char}
    (h1 : canonicalBareTok preD postD t1 = true)
    (h2 : canonicalBareTok preD postD t2 = true)
    (he1 : is_excluded_path t1 = false) (he2 : is_excluded_path t2 = false) :
    handle_diff_header (pstr "diff --git " ++ (t1 ++ ' ' :: t2)) preD postD
      = (false, some (pstr "diff --git " ++ (t1 ++ ' ' :: t2))) := by
  obtain ⟨hne1, hall1, _, _, _⟩ := canonicalBareTok_props h1
  obtain ⟨hne2, hall2, _, _, _⟩ := canonicalBareTok_props h2
  have hplain1 : ∀ c ∈ t1, plainShlexChar c = true := by
    intro c hc
    obtain ⟨_, hw, hqc, hsc, hbsl⟩ := hall1 c hc
    simp [plainShlexChar, hw, hqc, hsc, hbsl]
  have hplain2 : ∀ c ∈ t2, plainShlexChar c = true := by
    intro c hc
    obtain ⟨_, hw, hqc, hsc, hbsl⟩ := hall2 c hc
    simp [plainShlexChar, hw, hqc, hsc, hbsl]
  have hdr : startsWithL (pstr "diff --git " ++ (t1 ++ ' ' :: t2))
      (pstr "diff --git ") = true := startsWithL_append _ _
  have hdrop : (pstr "diff --git " ++ (t1 ++ ' ' :: t2)).drop
      (pstr "diff --git ").length = t1 ++ ' ' :: t2 := List.drop_left _ _
  have hstripc : pystrip (t1 ++ ' ' :: t2) = t1 ++ ' ' :: t2 :=
    pystrip_concat_tokens hne1 hne2 (fun c hc => (hall1 c hc).1)
      (fun c hc => (hall2 c hc).1)
  have htoksplit : shlexSplit (t1 ++ ' ' :: t2) = some [t1, t2] :=
    shlexSplit_two_plain hne1 hne2 hplain1 hplain2
  unfold handle_diff_header
  rw [hdr]
  simp only [Bool.not_true, Bool.false_eq_true, if_false]
  rw [hdrop, hstripc,
    if_neg (List.append_ne_nil_of_right_ne_nil t1 (List.cons_ne_nil ' ' t2)),
    htoksplit]
  simp only [quote_if_needed_plain fun c hc => (hall1 c hc).1,
    quote_if_needed_plain fun c hc => (hall2 c hc).1,
    extract_normalized_path_canonical h1, extract_normalized_path_canonical h2,
    he1, he2, Bool.or_self, Bool.false_eq_true, if_false,
    normalize_diff_token_canonical h1, normalize_diff_token_canonical h2,
    List.append_assoc]

theorem pyCleanPath_eq_self_of_all {l : List Char}
    (h : ∀ c ∈ l, isPySpace c = false ∧ isQuoteChar c = false ∧ (c == '\\') = false) :
    pyCleanPath l = l := by
  unfold pyCleanPath
  rw [show pystrip l = l from stripEnds_eq_self_of_all fun c hc => (h c hc).1,
    show stripQuoteEnds l = l from stripEnds_eq_self_of_all fun c hc => (h c hc).2.1]
  exact pyReplaceChar_eq_self fun c hc => (h c hc).2.2

theorem mem_of_mem_dropTrail {p : Char → Bool} {l : List Char} {c : Char}
    (h : c ∈ dropTrail p l) : c ∈ l := by
  unfold dropTrail at h
  have h2 : c ∈ l.reverse.dropWhile p := by simpa using h
  have h3 : c ∈ l.reverse := (List.dropWhile_sublist p).subset h2
  simpa using h3

theorem isQuotedTok_wrap (l : List Char) :
    isQuotedTok ('"' :: (l ++ [ '"'])) = true := by
  unfold isQuotedTok endsWithL
  rw [pstr_dquote]
  simp [List.reverse_cons, List.reverse_append, startsWithL_cons_cons,
    startsWithL_nil_right]

theorem isQuotedTok_eq_false_of_not_mem {l : List Char} (h : '"' ∉ l) :
    isQuotedTok l = false := by
  unfold isQuotedTok
  rw [pstr_dquote]
  simp [startsWithL_single_eq_false_of_not_mem h]

theorem strContains_append_right (a b : String) : strContains (a ++ b) b = true := by
  unfold strContains
  rw [show (a ++ b).data = a.data ++ b.data from rfl]
  exact containsSub_append_self _ _

/-! ### Claim theorems -/

/-- C3 counterexample: `normalize_path_value` is not idempotent as claimed —
on `"pre/ x"` one application yields `" x"` and a second application strips
the exposed leading space, yielding `"x"`. -/
theorem C3_counterexample :
    normalize_path_value
        (normalize_path_value (pstr "pre/ x") (pstr "/p") (pstr "/q"))
        (pstr "/p") (pstr "/q")
      ≠ normalize_path_value (pstr "pre/ x") (pstr "/p") (pstr "/q") := by
  decide

/-- C3 (amended): `normalize_path_value` is idempotent on every input whose
single application already yields a canonical value (no surrounding
whitespace or quotes, no backslashes, and no remaining strippable prefix);
in general a second application can strip further, as the counterexample
shows. -/
theorem C3_normalize_path_value_idempotent_on_canonical
    {preD postD p : List Char}
    (h : canonicalVal preD postD (normalize_path_value p preD postD) = true) :
    normalize_path_value (normalize_path_value p preD postD) preD postD
      = normalize_path_value p preD postD :=
  normalize_path_value_eq_self h

/-- C3 witness: the amended idempotence at `p = "pre/x"`. -/
theorem C3_witness :
    normalize_path_value
        (normalize_path_value (pstr "pre/x") (pstr "/p") (pstr "/q"))
        (pstr "/p") (pstr "/q")
      = normalize_path_value (pstr "pre/x") (pstr "/p") (pstr "/q") :=
  C3_normalize_path_value_idempotent_on_canonical (by decide)

/-- C8 counterexample: when the normalized content is empty, `write_text`
writes an empty file with no trailing newline (the Python truthiness test
`if content` skips the newline for the empty string). -/
theorem C8_counterexample :
    write_text_content (pstr "") = [] ∧
    endsWithL (write_text_content (pstr "")) (pstr "\n") = false := by
  constructor
  · decide
  · decide

/-- C8 (amended): every artifact written through `write_text` ends with a
trailing newline whenever its normalized content is non-empty; empty
content (the identical pre/post scenario) is written as an empty file. -/
theorem C8_write_text_trailing_newline {content : List Char}
    (h : content ≠ []) :
    endsWithL (write_text_content content) (pstr "\n") = true := by
  unfold write_text_content
  cases hE : endsWithL content (pstr "\n") with
  | true =>
    simp only [Bool.not_true, Bool.and_false, Bool.false_eq_true, if_false,
      List.append_nil]
    exact hE
  | false =>
    have hie : content.isEmpty = false := by
      cases content with
      | nil => exact absurd rfl h
      | cons c t => rfl
    simp only [hie, Bool.not_false, Bool.and_self, if_true]
    unfold endsWithL
    rw [pstr_nl]
    simp [List.reverse_append, startsWithL_cons_cons, startsWithL_nil_right]

/-- C8 witness: the amended trailing-newline rule at `content = "x"`. -/
theorem C8_witness :
    endsWithL (write_text_content (pstr "x")) (pstr "\n") = true :=
  C8_write_text_trailing_newline (by decide)

/-- C9 counterexample: `is_relative_to` is not strict — Python
`Path.relative_to` succeeds on equal paths, so `is_relative_to(p, p)` is
true, contradicting the claimed falsity at equality. -/
theorem C9_counterexample :
    is_relative_to (["a"] : List String) (["a"] : List String) = true := by
  decide

/-- C9 (amended): `is_relative_to(path, parent)` is a non-strict
containment check: it is true exactly when `parent`'s components lead
`path`'s (including equality), and false — the caught resolution error —
otherwise.  Strictness at the boundary is enforced separately by the
callers' explicit equality comparisons. -/
theorem C9_is_relative_to_iff (path parent : List String) :
    is_relative_to path parent = true ↔ ∃ r, path = parent ++ r :=
  startsWithL_iff

/-- C10 counterexample: a blank (all-whitespace) line contains no `|`, yet
`normalize_stat_output` drops it entirely instead of keeping it with its
leading whitespace removed (which would leave an empty line). -/
theorem C10_counterexample :
    normalize_stat_output (pstr "x | 1\n   \n2 files changed")
        (pstr "/p") (pstr "/q")
      = pstr "x | 1\n2 files changed" ∧
    normalize_stat_output (pstr "x | 1\n   \n2 files changed")
        (pstr "/p") (pstr "/q")
      ≠ pstr "x | 1\n\n2 files changed" := by
  constructor
  · decide
  · decide

/-- C10 (amended): every non-blank line of raw stat output without a `|`
separator (such as the `N files changed` summary) is kept by
`normalize_stat_output` with only its leading whitespace removed — it is
never dropped as excluded and never path-normalized; blank lines, however,
are skipped. -/
theorem C10_no_bar_line_kept {preD postD raw : List Char}
    {ls1 ls2 : List (List Char)} {l : List Char}
    (hsplit : splitLinesPy raw = ls1 ++ l :: ls2)
    (hnb : pystrip l ≠ [])
    (hbar : l.any (fun c => c == '|') = false) :
    normalize_stat_output raw preD postD
      = joinNL (normalizeStatLines preD postD ls1
          ++ lstripPy l :: normalizeStatLines preD postD ls2) := by
  unfold normalize_stat_output
  rw [hsplit, normalizeStatLines_append]
  congr 1
  congr 1
  simp only [normalizeStatLines, if_neg hnb, hbar, Bool.false_eq_true, if_false]

/-- C10 witness: the summary line `" 2 files changed"` is kept, left-stripped,
when the stat output is `"a | 1\n 2 files changed"`. -/
theorem C10_witness :
    normalize_stat_output (pstr "a | 1\n 2 files changed") (pstr "/p") (pstr "/q")
      = joinNL (normalizeStatLines (pstr "/p") (pstr "/q") [pstr "a | 1"]
          ++ lstripPy (pstr " 2 files changed")
            :: normalizeStatLines (pstr "/p") (pstr "/q") []) :=
  C10_no_bar_line_kept (by decide) (by decide) (by decide)

/-- C5 counterexample: `is_excluded_path` strips only `./` and one of
`a/`, `b/` — a `.git` path carrying a worktree-root prefix is NOT excluded
by this function (worktree roots are stripped earlier, by
`normalize_path_value`). -/
theorem C5_counterexample :
    is_excluded_path (pstr ".git/config") = true ∧
    is_excluded_path (pstr "/tmp/work/pre/.git/config") = false := by
  constructor
  · decide
  · decide

/-- Auxiliary: a cons-level mismatch at the head refutes `startsWithL`. -/
theorem startsWithL_cons_false {a b : Char} (h : (a == b) = false)
    (l p : List Char) : startsWithL (a :: l) (b :: p) = false := by
  rw [startsWithL_cons_cons, h, Bool.false_and]

/-- C5 (amended): `is_excluded_path` is true for the empty path and for
every `.git`-rooted path, with or without a leading `./`, `a/`, or `b/`
prefix (for paths of ordinary characters); a worktree-root prefix is not
stripped by this function. -/
theorem C5_excluded_with_diff_prefixes (q : List Char)
    (hq : q = pstr ".git" ∨ startsWithL q (pstr ".git/") = true)
    (hall : ∀ c ∈ q, isPySpace c = false ∧ isQuoteChar c = false ∧
      (c == '\\') = false) :
    is_excluded_path ([] : List Char) = true ∧
    is_excluded_path q = true ∧
    is_excluded_path (pstr "./" ++ q) = true ∧
    is_excluded_path (pstr "a/" ++ q) = true ∧
    is_excluded_path (pstr "b/" ++ q) = true := by
  have hshape : ∃ s, q = pstr ".git" ++ s ∧ (s = [] ∨ ∃ r, s = '/' :: r) := by
    cases hq with
    | inl h => exact ⟨[], by simp [h], Or.inl rfl⟩
    | inr h =>
      obtain ⟨r, hr⟩ := startsWithL_iff.mp h
      exact ⟨'/' :: r, by rw [hr]; rfl, Or.inr ⟨r, rfl⟩⟩
  obtain ⟨s, rfl, hs⟩ := hshape
  have hne : pstr ".git" ++ s ≠ [] := by
    show ('.' :: 'g' :: 'i' :: 't' :: s) ≠ []
    exact List.cons_ne_nil _ _
  have hclean : pyCleanPath (pstr ".git" ++ s) = pstr ".git" ++ s :=
    pyCleanPath_eq_self_of_all hall
  have hdot : startsWithL (pstr ".git" ++ s) (pstr "./") = false := by
    show startsWithL ('.' :: 'g' :: 'i' :: 't' :: s) ('.' :: '/' :: []) = false
    rw [startsWithL_cons_cons, startsWithL_cons_false (by decide), Bool.and_false]
  have hA : startsWithL (pstr ".git" ++ s) (pstr "a/") = false := by
    show startsWithL ('.' :: 'g' :: 'i' :: 't' :: s) ('a' :: '/' :: []) = false
    exact startsWithL_cons_false (by decide) _ _
  have hB : startsWithL (pstr ".git" ++ s) (pstr "b/") = false := by
    show startsWithL ('.' :: 'g' :: 'i' :: 't' :: s) ('b' :: '/' :: []) = false
    exact startsWithL_cons_false (by decide) _ _
  have hfin : (pstr ".git" ++ s == pstr ".git"
      || startsWithL (pstr ".git" ++ s) (pstr ".git/")) = true := by
    cases hs with
    | inl h => subst h; simp
    | inr h =>
      obtain ⟨r, rfl⟩ := h
      have hsw : startsWithL (pstr ".git" ++ '/' :: r) (pstr ".git/") = true := by
        show startsWithL (pstr ".git/" ++ r) (pstr ".git/") = true
        exact startsWithL_append _ _
      simp [hsw]
  refine ⟨by decide, ?_, ?_, ?_, ?_⟩
  · unfold is_excluded_path
    rw [if_neg hne]
    simp only [hclean, hdot, hA, hB, Bool.or_self, Bool.false_eq_true, if_false]
    exact hfin
  · have hne2 : pstr "./" ++ (pstr ".git" ++ s) ≠ [] := by
      show ('.' :: '/' :: '.' :: 'g' :: 'i' :: 't' :: s) ≠ []
      exact List.cons_ne_nil _ _
    have hclean2 : pyCleanPath (pstr "./" ++ (pstr ".git" ++ s))
        = pstr "./" ++ (pstr ".git" ++ s) := by
      apply pyCleanPath_eq_self_of_all
      intro c hc
      rcases List.mem_append.mp hc with hcp | hcq
      · have : c = '.' ∨ c = '/' := by
          simpa [pstr] using hcp
        rcases this with rfl | rfl <;> exact ⟨rfl, rfl, rfl⟩
      · exact hall c hcq
    have hsw2 : startsWithL (pstr "./" ++ (pstr ".git" ++ s)) (pstr "./") = true :=
      startsWithL_append _ _
    unfold is_excluded_path
    rw [if_neg hne2]
    simp only [hclean2, hsw2, if_true,
      List.drop_left' (show (pstr "./").length = 2 from rfl), hA, hB,
      Bool.or_self, Bool.false_eq_true, if_false]
    exact hfin
  · have hne2 : pstr "a/" ++ (pstr ".git" ++ s) ≠ [] := by
      show ('a' :: '/' :: '.' :: 'g' :: 'i' :: 't' :: s) ≠ []
      exact List.cons_ne_nil _ _
    have hclean2 : pyCleanPath (pstr "a/" ++ (pstr ".git" ++ s))
        = pstr "a/" ++ (pstr ".git" ++ s) := by
      apply pyCleanPath_eq_self_of_all
      intro c hc
      rcases List.mem_append.mp hc with hcp | hcq
      · have : c = 'a' ∨ c = '/' := by
          simpa [pstr] using hcp
        rcases this with rfl | rfl <;> exact ⟨rfl, rfl, rfl⟩
      · exact hall c hcq
    have hdot2 : startsWithL (pstr "a/" ++ (pstr ".git" ++ s)) (pstr "./") = false := by
      show startsWithL ('a' :: '/' :: '.' :: 'g' :: 'i' :: 't' :: s)
        ('.' :: '/' :: []) = false
      exact startsWithL_cons_false (by decide) _ _
    have hsa : startsWithL (pstr "a/" ++ (pstr ".git" ++ s)) (pstr "a/") = true :=
      startsWithL_append _ _
    unfold is_excluded_path
    rw [if_neg hne2]
    simp only [hclean2, hdot2, Bool.false_eq_true, if_false, hsa, Bool.true_or,
      if_true, List.drop_left' (show (pstr "a/").length = 2 from rfl)]
    exact hfin
  · have hne2 : pstr "b/" ++ (pstr ".git" ++ s) ≠ [] := by
      show ('b' :: '/' :: '.' :: 'g' :: 'i' :: 't' :: s) ≠ []
      exact List.cons_ne_nil _ _
    have hclean2 : pyCleanPath (pstr "b/" ++ (pstr ".git" ++ s))
        = pstr "b/" ++ (pstr ".git" ++ s) := by
      apply pyCleanPath_eq_self_of_all
      intro c hc
      rcases List.mem_append.mp hc with hcp | hcq
      · have : c = 'b' ∨ c = '/' := by
          simpa [pstr] using hcp
        rcases this with rfl | rfl <;> exact ⟨rfl, rfl, rfl⟩
      · exact hall c hcq
    have hdot2 : startsWithL (pstr "b/" ++ (pstr ".git" ++ s)) (pstr "./") = false := by
      show startsWithL ('b' :: '/' :: '.' :: 'g' :: 'i' :: 't' :: s)
        ('.' :: '/' :: []) = false
      exact startsWithL_cons_false (by decide) _ _
    have hsa2 : startsWithL (pstr "b/" ++ (pstr ".git" ++ s)) (pstr "a/") = false := by
      show startsWithL ('b' :: '/' :: '.' :: 'g' :: 'i' :: 't' :: s)
        ('a' :: '/' :: []) = false
      exact startsWithL_cons_false (by decide) _ _
    have hsb : startsWithL (pstr "b/" ++ (pstr ".git" ++ s)) (pstr "b/") = true :=
      startsWithL_append _ _
    unfold is_excluded_path
    rw [if_neg hne2]
    simp only [hclean2, hdot2, Bool.false_eq_true, if_false, hsa2, hsb,
      Bool.false_or, if_true,
      List.drop_left' (show (pstr "b/").length = 2 from rfl)]
    exact hfin

/-- C5 witness: the amended exclusion rule at `q = ".git/config"`. -/
theorem C5_witness :
    is_excluded_path ([] : List Char) = true ∧
    is_excluded_path (pstr ".git/config") = true ∧
    is_excluded_path (pstr "./" ++ pstr ".git/config") = true ∧
    is_excluded_path (pstr "a/" ++ pstr ".git/config") = true ∧
    is_excluded_path (pstr "b/" ++ pstr ".git/config") = true :=
  C5_excluded_with_diff_prefixes (pstr ".git/config") (by decide) (by decide)

/-- C6 counterexample: an unquoted token whose content contains whitespace
is returned bare by `normalize_diff_token`, not wrapped in double quotes —
the whitespace-triggered quoting happens earlier, in `quote_if_needed`. -/
theorem C6_counterexample :
    normalize_diff_token (pstr "x y") (pstr "/p") (pstr "/q") = pstr "x y" ∧
    (pstr "x y").any isPySpace = true ∧
    isQuotedTok (normalize_diff_token (pstr "x y") (pstr "/p") (pstr "/q"))
      = false := by
  refine ⟨by decide, by decide, by decide⟩

/-- No double quote survives `normalize_path_value` of a quote-free input. -/
theorem no_quote_normalize_path_value {preD postD text : List Char}
    (h : '"' ∉ text) : '"' ∉ normalize_path_value text preD postD := fun hm =>
  (mem_of_mem_normalize_path_value hm).elim (fun hx => h hx)
    (fun hx => by cases hx)

/-- No double quote in the reassembled (prefix, body) diff token. -/
theorem no_quote_reassembled {pfx text2 : List Char}
    (hpfx : '"' ∉ pfx) (ht : '"' ∉ text2) :
    '"' ∉ (if text2 ≠ [] then pfx ++ text2 else rstripSlashes pfx) := by
  split
  · intro hmem
    rcases List.mem_append.mp hmem with hx | hx
    · exact hpfx hx
    · exact ht hx
  · intro hmem
    exact hpfx (mem_of_mem_dropTrail hmem)

/-- C6 (amended): `normalize_diff_token` wraps its result in double quotes
exactly when the original (stripped) token was itself quoted; unquoted
tokens are returned bare even when the content contains whitespace (for
tokens whose stripped content does not carry stray interior quotes), and
this function performs no backslash or quote escaping — that is done by
`quote_if_needed` inside `handle_diff_header` before it is called. -/
theorem C6_quote_wrap_iff_quoted (token preD postD : List Char)
    (h : isQuotedTok (pystrip token) = true ∨ '"' ∉ pystrip token) :
    isQuotedTok (normalize_diff_token token preD postD)
      = isQuotedTok (pystrip token) := by
  cases hq : isQuotedTok (pystrip token) with
  | true =>
    have hq2 : (startsWithL (pystrip token) (pstr "\"")
        && endsWithL (pystrip token) (pstr "\"")) = true := hq
    simp only [normalize_diff_token, hq2, if_true]
    exact isQuotedTok_wrap _
  | false =>
    have hnq : '"' ∉ pystrip token := by
      cases h with
      | inl h2 => rw [h2] at hq; cases hq
      | inr h2 => exact h2
    have hq2 : (startsWithL (pystrip token) (pstr "\"")
        && endsWithL (pystrip token) (pstr "\"")) = false := hq
    simp only [normalize_diff_token, hq2, Bool.false_eq_true, if_false]
    by_cases ha : startsWithL (pystrip token) (pstr "a/") = true
    · simp only [ha, if_true]
      show isQuotedTok
        (if normalize_path_value ((pystrip token).drop 2) preD postD ≠ []
         then pstr "a/" ++ normalize_path_value ((pystrip token).drop 2) preD postD
         else rstripSlashes (pstr "a/")) = false
      exact isQuotedTok_eq_false_of_not_mem
        (no_quote_reassembled (by decide)
          (no_quote_normalize_path_value fun hm => hnq (List.mem_of_mem_drop hm)))
    · have ha' : startsWithL (pystrip token) (pstr "a/") = false := by
        simpa using ha
      by_cases hb : startsWithL (pystrip token) (pstr "b/") = true
      · simp only [ha', Bool.false_eq_true, if_false, hb, if_true]
        show isQuotedTok
          (if normalize_path_value ((pystrip token).drop 2) preD postD ≠ []
           then pstr "b/" ++ normalize_path_value ((pystrip token).drop 2) preD postD
           else rstripSlashes (pstr "b/")) = false
        exact isQuotedTok_eq_false_of_not_mem
          (no_quote_reassembled (by decide)
            (no_quote_normalize_path_value fun hm => hnq (List.mem_of_mem_drop hm)))
      · have hb' : startsWithL (pystrip token) (pstr "b/") = false := by
          simpa using hb
        simp only [ha', hb', Bool.false_eq_true, if_false]
        show isQuotedTok
          (if normalize_path_value (pystrip token) preD postD ≠ []
           then [] ++ normalize_path_value (pystrip token) preD postD
           else rstripSlashes []) = false
        exact isQuotedTok_eq_false_of_not_mem
          (no_quote_reassembled (by decide) (no_quote_normalize_path_value hnq))

/-- C6 witness: the amended quoting rule at the quoted token `"a b"`. -/
theorem C6_witness :
    isQuotedTok (normalize_diff_token (pstr "\"a b\"") (pstr "/p") (pstr "/q"))
      = isQuotedTok (pystrip (pstr "\"a b\"")) :=
  C6_quote_wrap_iff_quoted (pstr "\"a b\"") (pstr "/p") (pstr "/q")
    (Or.inl (by decide))

/-- C4 counterexample: a header whose two paths are canonical and
unprefixed is NOT returned unchanged when those paths are excluded —
`.git/config` is canonical yet the whole header is dropped. -/
theorem C4_counterexample :
    canonicalBareTok (pstr "/p") (pstr "/q") (pstr ".git/config") = true ∧
    handle_diff_header (pstr "diff --git .git/config .git/config")
        (pstr "/p") (pstr "/q") = (true, none) ∧
    handle_diff_header (pstr "diff --git .git/config .git/config")
        (pstr "/p") (pstr "/q")
      ≠ (false, some (pstr "diff --git .git/config .git/config")) := by
  refine ⟨by decide, by decide, by decide⟩

/-- C4 (amended): for every path already in canonical (repository-relative,
unprefixed) bare form, `normalize_path_value` is the identity; and
`handle_diff_header` on a header whose two such paths are additionally not
excluded is a no-op, returning the header unchanged with no skip signal. -/
theorem C4_canonical_roundtrip {preD postD t1 t2 : List Char}
    (h1 : canonicalBareTok preD postD t1 = true)
    (h2 : canonicalBareTok preD postD t2 = true)
    (he1 : is_excluded_path t1 = false) (he2 : is_excluded_path t2 = false) :
    normalize_path_value t1 preD postD = t1 ∧
    handle_diff_header (pstr "diff --git " ++ (t1 ++ ' ' :: t2)) preD postD
      = (false, some (pstr "diff --git " ++ (t1 ++ ' ' :: t2))) :=
  ⟨normalize_path_value_eq_self (canonicalBareTok_props h1).2.2.2.2,
   handle_diff_header_canonical h1 h2 he1 he2⟩

/-- C4 witness: the no-op round-trip on `diff --git src/a.txt src/b.txt`. -/
theorem C4_witness :
    normalize_path_value (pstr "src/a.txt") (pstr "/p") (pstr "/q")
        = pstr "src/a.txt" ∧
    handle_diff_header
        (pstr "diff --git " ++ (pstr "src/a.txt" ++ ' ' :: pstr "src/b.txt"))
        (pstr "/p") (pstr "/q")
      = (false, some
          (pstr "diff --git " ++ (pstr "src/a.txt" ++ ' ' :: pstr "src/b.txt"))) :=
  C4_canonical_roundtrip (by decide) (by decide) (by decide) (by decide)

/-- C1: `is_safe_work_base_target` returns true only if the scratch
directory exists as a directory, is not a filesystem root, lies under the
repository root or the declared scratch parent, equals neither boundary,
and carries the provenance marker or the `subagent_` naming convention.
In particular it is false for a filesystem root, for the repository root
itself, and for a directory with neither marker nor naming convention. -/
theorem C1_is_safe_work_base_target_necessary {fs : FS}
    {work_base work_base_parent work_marker repo_root : List String}
    (h : is_safe_work_base_target fs work_base work_base_parent work_marker
      repo_root = true) :
    fsExists fs work_base = true ∧ fsIsDir fs work_base = true ∧
    is_top_level_path work_base = false ∧
    (is_relative_to work_base repo_root = true
      ∨ is_relative_to work_base work_base_parent = true) ∧
    work_base ≠ repo_root ∧ work_base ≠ work_base_parent ∧
    (fsExists fs work_marker = true
      ∨ containsSub (pathName work_base).toList (pstr "subagent_") = true) := by
  unfold is_safe_work_base_target at h
  split at h
  · simp at h
  · rename_i h1
    split at h
    · simp at h
    · rename_i h2
      split at h
      · simp at h
      · rename_i h3
        split at h
        · simp at h
        · rename_i h4
          simp only [Bool.or_eq_true, Bool.not_eq_true', Bool.not_eq_true,
            not_or, Bool.not_eq_false, beq_iff_eq] at h1 h2 h3 h4
          simp only [Bool.or_eq_true] at h
          exact ⟨h1.1, h1.2, by simpa using h2, h3, h4.1, h4.2, h⟩

/-- C1 witness: a marker-free directory named with the `subagent_`
convention inside the declared parent is accepted, and satisfies every
necessary condition. -/
theorem C1_witness :
    fsExists ⟨[["tmp", "subagent_x"]], []⟩ ["tmp", "subagent_x"] = true ∧
    fsIsDir ⟨[["tmp", "subagent_x"]], []⟩ ["tmp", "subagent_x"] = true ∧
    is_top_level_path ["tmp", "subagent_x"] = false ∧
    (is_relative_to ["tmp", "subagent_x"] ["repo"] = true
      ∨ is_relative_to ["tmp", "subagent_x"] ["tmp"] = true) ∧
    ["tmp", "subagent_x"] ≠ ["repo"] ∧ ["tmp", "subagent_x"] ≠ ["tmp"] ∧
    (fsExists ⟨[["tmp", "subagent_x"]], []⟩ ["tmp", "subagent_x", "m"] = true
      ∨ containsSub (pathName ["tmp", "subagent_x"]).toList
          (pstr "subagent_") = true) :=
  C1_is_safe_work_base_target_necessary (by decide)

/-- C7 counterexample: when the apply step fails but the cleanup removal
times out, `apply_patch` raises the timeout error instead of an
apply-error — the raised message does not contain the apply stderr
(`boom`), and the worktree was not removed. -/
theorem C7_counterexample :
    (apply_patch envTimeoutCleanup "repo" "wt" "p.patch").1
      = Except.error (PyError.runtimeError
          "Git command timed out after 300s: git worktree remove -f wt") ∧
    strContains "Git command timed out after 300s: git worktree remove -f wt"
        "boom" = false := by
  refine ⟨rfl, rfl⟩

/-- C7 (amended): when the apply step fails with a tool error and the
cleanup removal does not itself time out, `apply_patch` issues exactly the
worktree-add, apply, and worktree-remove commands in order — attempting the
removal before raising — and raises an apply-error whose message contains
the tool's stderr; it performs no other effect, so the patch file is never
modified. -/
theorem C7_apply_failure_cleanup (env : GitEnv) (repo wt patch : String)
    (rc : Int) (out err aout aerr : String)
    (hadd : env.run repo (addCmd wt) = ExecResult.completed 0 aout aerr)
    (happ : env.run repo (applyCmd wt patch) = ExecResult.completed rc out err)
    (hrc : ¬ rc ∈ ([0] : List Int))
    (hrem : env.run repo (removeCmd wt) ≠ ExecResult.timedOut) :
    apply_patch env repo wt patch
      = (Except.error (PyError.runtimeError
          ("Failed to apply patch: " ++ patch ++ "\nstderr: " ++ err)),
         [addCmd wt, applyCmd wt patch, removeCmd wt]) ∧
    strContains ("Failed to apply patch: " ++ patch ++ "\nstderr: " ++ err)
      err = true := by
  constructor
  · have hrg_add : run_gitE env (addCmd wt) repo [0] = Except.ok (stripS aout) := by
      simp [run_gitE, hadd]
    have hrc0 : ¬ rc = 0 := by simpa using hrc
    have hrg_apply : run_gitE env (applyCmd wt patch) repo [0]
        = Except.error (PyError.calledProcessError rc out err) := by
      simp [run_gitE, happ, hrc0]
    have hnotrt : ∀ m, run_gitE env (removeCmd wt) repo [0]
        ≠ Except.error (PyError.runtimeError m) := by
      intro m hcontra
      unfold run_gitE at hcontra
      cases hrm2 : env.run repo (removeCmd wt) with
      | timedOut => exact hrem hrm2
      | completed rc2 o2 e2 =>
        rw [hrm2] at hcontra
        have hcontra2 : (if rc2 ∈ ([0] : List Int) then Except.ok (stripS o2)
            else Except.error (PyError.calledProcessError rc2 o2 e2))
              = Except.error (PyError.runtimeError m) := hcontra
        split at hcontra2 <;> simp at hcontra2
    unfold apply_patch
    rw [hrg_add, hrg_apply]
    cases hrg : run_gitE env (removeCmd wt) repo [0] with
    | ok u => rfl
    | error e =>
      cases e with
      | runtimeError m => exact absurd hrg (hnotrt m)
      | calledProcessError a b c => rfl
  · exact strContains_append_right _ err

/-- C7 witness: the amended cleanup-then-raise behaviour under an oracle
whose cleanup removal succeeds. -/
theorem C7_witness :
    apply_patch envCleanupOk "repo" "wt" "p.patch"
      = (Except.error (PyError.runtimeError
          ("Failed to apply patch: " ++ "p.patch" ++ "\nstderr: " ++ "boom")),
         [addCmd "wt", applyCmd "wt" "p.patch", removeCmd "wt"]) ∧
    strContains ("Failed to apply patch: " ++ "p.patch" ++ "\nstderr: " ++ "boom")
      "boom" = true :=
  C7_apply_failure_cleanup envCleanupOk "repo" "wt" "p.patch" 1 "" "boom" "" ""
    rfl rfl (by decide) (by decide)

/-- C2: in `normalize_patch_output`, a `diff --git ` header whose two
shlex tokens yield an excluded canonical bare path on either side is
dropped together with every following line up to (but not including) the
next header: the output is exactly the processing of the preceding lines
followed by the processing of the lines from the next header on. -/
theorem C2_excluded_header_block_dropped {preD postD raw : List Char}
    {pfx blk rest : List (List Char)} {hline t1 t2 : List Char}
    (hsplit : splitLinesPy raw = pfx ++ hline :: (blk ++ rest))
    (hhdr : startsWithL hline (pstr "diff --git ") = true)
    (htok : shlexSplit (pystrip (hline.drop (pstr "diff --git ").length))
      = some [t1, t2])
    (hexc : (is_excluded_path
        (extract_normalized_path (quote_if_needed t1) preD postD)
      || is_excluded_path
        (extract_normalized_path (quote_if_needed t2) preD postD)) = true)
    (hblk : ∀ l ∈ blk, startsWithL l (pstr "diff --git ") = false) :
    normalize_patch_output raw preD postD
      = joinNL (processPatchLines preD postD false pfx
          ++ processPatchLines preD postD true rest) := by
  unfold normalize_patch_output
  rw [hsplit, processPatchLines_append]
  congr 1
  congr 1
  exact processPatchLines_drop_excluded blk rest _ hhdr htok hexc hblk

/-- C2 witness: a patch whose first block touches `.git/x` loses that
header and its body; the block for `s` survives. -/
theorem C2_witness :
    normalize_patch_output
        (pstr "diff --git a/.git/x b/.git/x\nindex 1\ndiff --git a/s b/s\nctx")
        (pstr "/p") (pstr "/q")
      = joinNL (processPatchLines (pstr "/p") (pstr "/q") false []
          ++ processPatchLines (pstr "/p") (pstr "/q") true
              [pstr "diff --git a/s b/s", pstr "ctx"]) :=
  @C2_excluded_header_block_dropped (pstr "/p") (pstr "/q")
    (pstr "diff --git a/.git/x b/.git/x\nindex 1\ndiff --git a/s b/s\nctx")
    [] [pstr "index 1"] [pstr "diff --git a/s b/s", pstr "ctx"]
    (pstr "diff --git a/.git/x b/.git/x") (pstr "a/.git/x") (pstr "b/.git/x")
    (by decide) (by decide) (by decide) (by decide) (by decide)
